import Mathlib

/-
Verification of the marker-group HMC core (src/src/network.rs).

Embedding conventions:
* `f32` values are modelled as real numbers; `f32::tanh` is `Real.tanh` and
  `x.powf(2.)` at an integer exponent is `x ^ 2`.
* `ndarray::Array1<f32>` is modelled as `List ℝ`.  An ndarray operation that
  panics (elementwise arithmetic or a dot product on arrays of different
  lengths, an out-of-bounds index, `Option::unwrap` on `None`) is modelled as
  returning `none`; a function returns `some v` exactly when the source
  returns the value v.  ndarray would broadcast a length-1 right operand in
  elementwise arithmetic; this embedding requires equal lengths.  On the
  groups and inputs appearing in the theorems below the two semantics agree,
  and whenever the genotype matrix is non-square every execution path of
  `log_density_gradient` panics in the source as well (the broadcastable
  cases only defer the panic to the subsequent addition or slice assignment).
* The external collaborators (the `rs_bedvec` genotype matrix and reader and
  the `rs_hmc` momentum source) are modelled from the spec's collaborator
  contracts, as documented at each such definition.
* The two PRNGs (the group's `ThreadRng` and the momentum source's sampler)
  are externalized into explicit input streams `uniforms` and `momenta`; the
  unbounded `loop` in `sample_params` is given explicit fuel, and fuel
  exhaustion is also modelled as `none`.
-/

/-- Dot product of two real lists (`ndarray` truncates nothing here because
every use below is guarded by a length check, as `Array1::dot` panics on a
length mismatch). -/
def dotList (a b : List ℝ) : ℝ :=
  (List.zipWith (fun x y => x * y) a b).sum

/-- Elementwise sum; `none` models the ndarray panic on a length mismatch. -/
def ewAdd (a b : List ℝ) : Option (List ℝ) :=
  if a.length = b.length then some (List.zipWith (fun x y => x + y) a b) else none

/-- Elementwise difference; `none` models the ndarray panic on a length mismatch. -/
def ewSub (a b : List ℝ) : Option (List ℝ) :=
  if a.length = b.length then some (List.zipWith (fun x y => x - y) a b) else none

/-- Elementwise product; `none` models the ndarray panic on a length mismatch. -/
def ewMul (a b : List ℝ) : Option (List ℝ) :=
  if a.length = b.length then some (List.zipWith (fun x y => x * y) a b) else none

/-- Guarded dot product: `Array1::dot` panics when the lengths differ. -/
def dotOpt (a b : List ℝ) : Option ℝ :=
  if a.length = b.length then some (dotList a b) else none

/-- Left scalar multiple `c * a`. -/
def smul (c : ℝ) (a : List ℝ) : List ℝ :=
  a.map (fun t => c * t)

/-- Right scalar multiple `a * c` (ndarray `array * scalar`). -/
def smulR (a : List ℝ) (c : ℝ) : List ℝ :=
  a.map (fun t => t * c)

/-- Broadcast scalar addition `a + c`. -/
def addScalar (a : List ℝ) (c : ℝ) : List ℝ :=
  a.map (fun t => t + c)

/-- Elementwise negation. -/
def negVec (a : List ℝ) : List ℝ :=
  a.map (fun t => -t)

/-- `scaled_add`: `a += c * b`, which panics on a length mismatch. -/
def scaledAdd (a : List ℝ) (c : ℝ) (b : List ℝ) : Option (List ℝ) :=
  if a.length = b.length then some (List.zipWith (fun x y => x + c * y) a b) else none

/-- Modelled from the spec (§2, §4.1): the external `rs_bedvec` genotype
matrix `BedVecCM`, an immutable N × M matrix exposing the two products
`X·w` and `Xᵀ·v`; the packed 2-bit storage is abstracted into the entry
function. -/
structure GMatrix where
  rows : ℕ
  cols : ℕ
  entry : ℕ → ℕ → ℝ

/-- Row i of the genotype matrix as a list of length `cols`. -/
def GMatrix.row (X : GMatrix) (i : ℕ) : List ℝ :=
  (List.range X.cols).map (fun j => X.entry i j)

/-- Column j of the genotype matrix as a list of length `rows`. -/
def GMatrix.col (X : GMatrix) (j : ℕ) : List ℝ :=
  (List.range X.rows).map (fun i => X.entry i j)

/-- Modelled from the spec (§4.1): `right_multiply_par` computes `X·w`;
a dimension mismatch is a programmer error and halts. -/
def GMatrix.right_multiply (X : GMatrix) (w : List ℝ) : Option (List ℝ) :=
  if w.length = X.cols then
    some ((List.range X.rows).map (fun i => dotList (X.row i) w))
  else none

/-- Modelled from the spec (§4.1): `left_multiply_simd_v1_par` computes
`Xᵀ·v`; a dimension mismatch is a programmer error and halts. -/
def GMatrix.left_multiply (X : GMatrix) (v : List ℝ) : Option (List ℝ) :=
  if v.length = X.rows then
    some ((List.range X.cols).map (fun j => dotList (X.col j) v))
  else none

/-- Modelled from the spec (§1, §4.1): the external `rs_bedvec` reader, which
delivers the genotype matrix (`read_into_bedvec`) or fails before the core
starts. -/
structure BedReader where
  read_into_bedvec : GMatrix

/-- Modelled from the spec (§4.3): the external `rs_hmc` momentum source of a
fixed dimension D; its `sample()` draws are externalized into the `momenta`
stream of `sample_params`. -/
structure MultivariateStandardNormalMomentum where
  dimension : ℕ

/-- Modelled from the spec (§4.3): the momentum source's exact log-density,
`−½‖p‖² − (D/2)·log(2π)`. -/
noncomputable def MultivariateStandardNormalMomentum.log_density
    (m : MultivariateStandardNormalMomentum) (p : List ℝ) : ℝ :=
  -(1 / 2) * dotList p p - (m.dimension : ℝ) / 2 * Real.log (2 * Real.pi)

/-- `activation_fn` from the source: `f32::tanh`. -/
noncomputable def activation_fn (x : ℝ) : ℝ :=
  Real.tanh x

/-- `activation_fn_derivative` from the source: `1. - f32::tanh(x).powf(2.)`. -/
noncomputable def activation_fn_derivative (x : ℝ) : ℝ :=
  1 - Real.tanh x ^ 2

/-- The `MarkerGroup` struct.  The `rng : ThreadRng` field is externalized
into the `uniforms` stream of `sample_params`. -/
structure MarkerGroup where
  residual : List ℝ
  w1 : List ℝ
  b1 : ℝ
  w2 : ℝ
  lambda_w1 : ℝ
  lambda_b1 : ℝ
  lambda_w2 : ℝ
  lambda_e : ℝ
  bed_reader : BedReader
  dim : ℕ
  momentum_sampler : MultivariateStandardNormalMomentum
  marker_data : Option GMatrix

/-- `MarkerGroup::new`. -/
def MarkerGroup.new (residual : List ℝ) (w1 : List ℝ) (b1 : ℝ) (w2 : ℝ)
    (bed_reader : BedReader) (dim : ℕ) : MarkerGroup :=
  { residual := residual
    w1 := w1
    b1 := b1
    w2 := w2
    lambda_w1 := 1
    lambda_b1 := 1
    lambda_w2 := 1
    lambda_e := 1
    bed_reader := bed_reader
    dim := dim
    momentum_sampler := ⟨dim + 2⟩
    marker_data := none }

/-- `MarkerGroup::load_marker_data`: binds the genotype view read from the
bed reader. -/
def MarkerGroup.load_marker_data (g : MarkerGroup) : MarkerGroup :=
  { g with marker_data := some g.bed_reader.read_into_bedvec }

/-- `MarkerGroup::forget_marker_data`: drops the genotype view. -/
def MarkerGroup.forget_marker_data (g : MarkerGroup) : MarkerGroup :=
  { g with marker_data := none }

/-- `MarkerGroup::forward_feed`: `(X·w₁ + b₁).map(tanh) * w₂`; `none` models
the panic of `unwrap` on unbound marker data or of a dimension mismatch. -/
noncomputable def MarkerGroup.forward_feed (g : MarkerGroup) (b1 : ℝ)
    (w1 : List ℝ) (w2 : ℝ) : Option (List ℝ) :=
  g.marker_data.bind (fun X =>
    (X.right_multiply w1).map (fun xw =>
      smulR ((addScalar xw b1).map activation_fn) w2))

/-- `MarkerGroup::rss`: `r = residual − forward_feed; r.dot(r)`. -/
noncomputable def MarkerGroup.rss (g : MarkerGroup) (b1 : ℝ) (w1 : List ℝ)
    (w2 : ℝ) : Option ℝ :=
  (g.forward_feed b1 w1 w2).bind (fun yhat =>
    (ewSub g.residual yhat).map (fun r => dotList r r))

/-- `MarkerGroup::log_density`.  The parameter vector is read at indices
0, 1..=dim, dim+1; an input shorter than dim+2 makes the source panic at one
of those index accesses, modelled by the length guard.  Note the sign of the
`rss_part` in the source: `self.lambda_e / 2. * self.rss(..)`. -/
noncomputable def MarkerGroup.log_density (g : MarkerGroup) (p : List ℝ) :
    Option ℝ :=
  if g.dim + 2 ≤ p.length then
    let b1 := p.getD 0 0
    let w1 := (p.drop 1).take g.dim
    let w2 := p.getD (g.dim + 1) 0
    (g.rss b1 w1 w2).map (fun r =>
      -g.lambda_b1 / 2 * b1 * b1 + -g.lambda_w1 / 2 * dotList w1 w1 +
        -g.lambda_w2 / 2 * w2 * w2 + g.lambda_e / 2 * r)
  else none

/-- `MarkerGroup::log_density_gradient`.  Mirrors the source line by line,
including `let y_hat = &a * &self.w1;` (the STORED first-layer weights) and
the elementwise product `&drss_dyhat * w2 * X.left_multiply(h_prime_of_z)`.
The final slice assignment into indices 1..=dim cannot mismatch once the
earlier elementwise guards have passed, since they force the list assigned
to have length dim. -/
noncomputable def MarkerGroup.log_density_gradient (g : MarkerGroup)
    (p : List ℝ) : Option (List ℝ) :=
  if g.dim + 2 ≤ p.length then
    let b1 := p.getD 0 0
    let w1 := (p.drop 1).take g.dim
    let w2 := p.getD (g.dim + 1) 0
    g.marker_data.bind (fun X =>
      (X.right_multiply w1).bind (fun x_times_w1 =>
        let z := addScalar x_times_w1 b1
        let a := z.map activation_fn
        let h_prime_of_z := z.map activation_fn_derivative
        (ewMul a g.w1).bind (fun y_hat =>
          (ewSub y_hat g.residual).bind (fun ydiff =>
            let drss_dyhat := smul (-g.lambda_e) ydiff
            (dotOpt drss_dyhat h_prime_of_z).bind (fun d1 =>
              (X.left_multiply h_prime_of_z).bind (fun xth =>
                (ewMul (smulR drss_dyhat w2) xth).bind (fun t2 =>
                  (ewAdd (smul (-g.lambda_w1) w1) t2).bind (fun gw1 =>
                    (dotOpt drss_dyhat a).map (fun d2 =>
                      (-g.lambda_b1 * b1 + w2 * d1) ::
                        (gw1 ++ [-g.lambda_w2 * w2 + d2]))))))))))
  else none

/-- `MarkerGroup::param_vec`: pushes `b1` and extends with `w1` (and nothing
else). -/
def MarkerGroup.param_vec (g : MarkerGroup) : List ℝ :=
  g.b1 :: g.w1

/-- `MarkerGroup::neg_hamiltonian`: `log_density(θ) + momentum log-density`. -/
noncomputable def MarkerGroup.neg_hamiltonian (g : MarkerGroup)
    (position momentum : List ℝ) : Option ℝ :=
  (g.log_density position).map (fun ld =>
    ld + g.momentum_sampler.log_density momentum)

/-- `MarkerGroup::acceptance_probability`: returns 1 when the log acceptance
ratio is nonnegative and its exponential otherwise. -/
noncomputable def MarkerGroup.acceptance_probability (g : MarkerGroup)
    (new_position new_momentum initial_position initial_momentum : List ℝ) :
    Option ℝ :=
  (g.neg_hamiltonian new_position new_momentum).bind (fun hn =>
    (g.neg_hamiltonian initial_position initial_momentum).map (fun hi =>
      if 0 ≤ hn - hi then 1 else Real.exp (hn - hi)))

/-- `MarkerGroup::leapfrog`: half-kick, drift, half-kick. -/
noncomputable def MarkerGroup.leapfrog (g : MarkerGroup)
    (position momentum : List ℝ) (step_size : ℝ) :
    Option (List ℝ × List ℝ) :=
  (g.log_density_gradient position).bind (fun g1 =>
    (scaledAdd momentum (step_size / 2) g1).bind (fun m1 =>
      (scaledAdd position step_size m1).bind (fun p1 =>
        (g.log_density_gradient p1).bind (fun g2 =>
          (scaledAdd m1 (step_size / 2) g2).map (fun m2 => (p1, m2))))))

/-- The `for _ in 0..integration_length` loop of `sample_params`: L leapfrog
steps in sequence. -/
noncomputable def MarkerGroup.leapfrogSteps (g : MarkerGroup) :
    ℕ → List ℝ → List ℝ → ℝ → Option (List ℝ × List ℝ)
  | 0, position, momentum, _ => some (position, momentum)
  | n + 1, position, momentum, eps =>
      (g.leapfrog position momentum eps).bind (fun pm =>
        g.leapfrogSteps n pm.1 pm.2 eps)

/-- The `loop` body of `MarkerGroup::sample_params`, with the two PRNGs
externalized: `momenta k` is the momentum the sampler draws on iteration k
and `uniforms k` the uniform acceptance draw.  Every iteration restarts from
`param_vec` (the source clones `start_position`, computed once at entry, at
the top of every iteration; no field of `self` is written, so recomputing it
is faithful).  `fuel` bounds the unbounded `loop`; running out of fuel is
also modelled as `none`. -/
noncomputable def MarkerGroup.sampleParamsAux (g : MarkerGroup) (eps : ℝ)
    (L : ℕ) (momenta : ℕ → List ℝ) (uniforms : ℕ → ℝ) :
    ℕ → ℕ → Option (List ℝ)
  | 0, _ => none
  | fuel + 1, k =>
      (g.leapfrogSteps L g.param_vec (momenta k) eps).bind (fun pm =>
        (g.acceptance_probability pm.1 pm.2 g.param_vec (momenta k)).bind
          (fun a =>
            if uniforms k < a then some pm.1
            else g.sampleParamsAux eps L momenta uniforms fuel (k + 1)))

/-- `MarkerGroup::sample_params`.  The method takes `&mut self` but assigns
to no field of `self`; its only mutations are the PRNG draws, which are the
`momenta` and `uniforms` streams here.  The returned group is the post-call
group state, which therefore equals the input group. -/
noncomputable def MarkerGroup.sample_params (g : MarkerGroup) (eps : ℝ)
    (L : ℕ) (momenta : ℕ → List ℝ) (uniforms : ℕ → ℝ) (fuel : ℕ) :
    Option (List ℝ × MarkerGroup) :=
  (g.sampleParamsAux eps L momenta uniforms fuel 0).map (fun θ => (θ, g))

lemma ewAdd_eq_some {a b c : List ℝ} (h : ewAdd a b = some c) :
    a.length = b.length ∧ c = List.zipWith (fun x y => x + y) a b := by
  unfold ewAdd at h
  split_ifs at h with hl
  exact ⟨hl, (Option.some.inj h).symm⟩

lemma ewSub_eq_some {a b c : List ℝ} (h : ewSub a b = some c) :
    a.length = b.length ∧ c = List.zipWith (fun x y => x - y) a b := by
  unfold ewSub at h
  split_ifs at h with hl
  exact ⟨hl, (Option.some.inj h).symm⟩

lemma ewMul_eq_some {a b c : List ℝ} (h : ewMul a b = some c) :
    a.length = b.length ∧ c = List.zipWith (fun x y => x * y) a b := by
  unfold ewMul at h
  split_ifs at h with hl
  exact ⟨hl, (Option.some.inj h).symm⟩

lemma dotOpt_eq_some {a b : List ℝ} {r : ℝ} (h : dotOpt a b = some r) :
    a.length = b.length ∧ r = dotList a b := by
  unfold dotOpt at h
  split_ifs at h with hl
  exact ⟨hl, (Option.some.inj h).symm⟩

lemma scaledAdd_eq_some {a b c : List ℝ} {k : ℝ} (h : scaledAdd a k b = some c) :
    a.length = b.length ∧ c = List.zipWith (fun x y => x + k * y) a b := by
  unfold scaledAdd at h
  split_ifs at h with hl
  exact ⟨hl, (Option.some.inj h).symm⟩

lemma right_multiply_eq_some {X : GMatrix} {w v : List ℝ}
    (h : X.right_multiply w = some v) :
    w.length = X.cols ∧ v.length = X.rows := by
  unfold GMatrix.right_multiply at h
  split_ifs at h with hl
  exact ⟨hl, by rw [← Option.some.inj h]; simp⟩

lemma left_multiply_eq_some {X : GMatrix} {v u : List ℝ}
    (h : X.left_multiply v = some u) :
    v.length = X.rows ∧ u.length = X.cols := by
  unfold GMatrix.left_multiply at h
  split_ifs at h with hl
  exact ⟨hl, by rw [← Option.some.inj h]; simp⟩

lemma length_zipWith_eq {f : ℝ → ℝ → ℝ} {a b : List ℝ}
    (h : a.length = b.length) : (List.zipWith f a b).length = a.length := by
  simp [List.length_zipWith, h]

lemma length_negVec (a : List ℝ) : (negVec a).length = a.length := by
  simp [negVec]

lemma zipWith_step_zero : ∀ (a b : List ℝ), a.length = b.length →
    List.zipWith (fun x y => x + (0:ℝ) * y) a b = a := by
  intro a
  induction a with
  | nil => intro b _; simp
  | cons x xs ih =>
      intro b hb
      cases b with
      | nil => simp at hb
      | cons y ys =>
          simp only [List.length_cons, Nat.succ.injEq] at hb
          rw [List.zipWith_cons_cons, ih ys hb]
          norm_num

lemma zip_cancel_neg (c : ℝ) : ∀ (a b : List ℝ), a.length = b.length →
    List.zipWith (fun x y => x + c * y)
      (negVec (List.zipWith (fun x y => x + c * y) a b)) b = negVec a := by
  intro a
  induction a with
  | nil => intro b _; simp [negVec]
  | cons x xs ih =>
      intro b hb
      cases b with
      | nil => simp at hb
      | cons y ys =>
          simp only [List.length_cons, Nat.succ.injEq] at hb
          simp only [List.zipWith_cons_cons, negVec, List.map_cons,
            List.cons.injEq]
          exact ⟨by ring, ih ys hb⟩

lemma zip_cancel_diff (c : ℝ) : ∀ (a b : List ℝ), a.length = b.length →
    List.zipWith (fun x y => x + c * y)
      (List.zipWith (fun x y => x + c * y) a b) (negVec b) = a := by
  intro a
  induction a with
  | nil => intro b _; simp
  | cons x xs ih =>
      intro b hb
      cases b with
      | nil => simp at hb
      | cons y ys =>
          simp only [List.length_cons, Nat.succ.injEq] at hb
          simp only [List.zipWith_cons_cons, negVec, List.map_cons,
            List.cons.injEq]
          exact ⟨by ring, ih ys hb⟩

/-- A 1 × 1 genotype matrix whose only entry is 0. -/
def X0 : GMatrix := ⟨1, 1, fun _ _ => 0⟩

/-- A 1 × 1 genotype matrix whose only entry is 1. -/
def X1 : GMatrix := ⟨1, 1, fun _ _ => 1⟩

/-- A 1 × 0 genotype matrix (one individual, no markers). -/
def X10 : GMatrix := ⟨1, 0, fun _ _ => 0⟩

/-- A 2 × 1 genotype matrix (two individuals, one marker). -/
def X21 : GMatrix := ⟨2, 1, fun _ _ => 0⟩

/-- Concrete group with N = M = 1, X = [[0]], r = [0], all parameters 0,
marker data bound. -/
def gEx : MarkerGroup := (MarkerGroup.new [0] [0] 0 0 ⟨X0⟩ 1).load_marker_data

lemma gEx_log_density : gEx.log_density [0, 0, 0] = some 0 := by
  simp [gEx, MarkerGroup.log_density, MarkerGroup.rss, MarkerGroup.forward_feed,
    MarkerGroup.load_marker_data, MarkerGroup.new, X0, GMatrix.right_multiply,
    GMatrix.row, dotList, ewSub, addScalar, smulR, activation_fn,
    Real.tanh_zero, List.range_succ, List.range_zero, Function.comp]

lemma gEx_gradient : gEx.log_density_gradient [0, 0, 0] = some [0, 0, 0] := by
  simp [gEx, MarkerGroup.log_density_gradient, MarkerGroup.load_marker_data,
    MarkerGroup.new, X0, GMatrix.right_multiply, GMatrix.left_multiply,
    GMatrix.row, GMatrix.col, dotList, dotOpt, ewMul, ewAdd, ewSub, addScalar,
    smul, smulR, activation_fn, activation_fn_derivative, Real.tanh_zero,
    List.range_succ, List.range_zero, Function.comp]

lemma gEx_acc :
    gEx.acceptance_probability [0, 0, 0] [0, 0, 0] [0, 0, 0] [0, 0, 0] =
      some 1 := by
  simp [MarkerGroup.acceptance_probability, MarkerGroup.neg_hamiltonian,
    gEx_log_density]

lemma gEx_steps_eps_zero :
    gEx.leapfrogSteps 1 [0, 0, 0] [0, 0, 0] 0 = some ([0, 0, 0], [0, 0, 0]) := by
  simp [MarkerGroup.leapfrogSteps, MarkerGroup.leapfrog, gEx_gradient,
    scaledAdd]

lemma gEx_steps_eps_one :
    gEx.leapfrogSteps 1 [0, 0, 0] [0, 0, 0] 1 = some ([0, 0, 0], [0, 0, 0]) := by
  simp [MarkerGroup.leapfrogSteps, MarkerGroup.leapfrog, gEx_gradient,
    scaledAdd]

/-- Modelled from the spec (§4.2 Log density): `U(θ) = (λ_b1/2)·b₁² +
(λ_w1/2)·‖w₁‖² + (λ_w2/2)·w₂² + (λ_e/2)·‖r − ŷ‖²` with `ŷ = w₂·tanh(X·w₁+b₁)`,
over the same flat layout and with the same panic conditions as the source's
`log_density`; used only to compare the source against the spec's `−U`. -/
noncomputable def U_fromSpec (g : MarkerGroup) (p : List ℝ) : Option ℝ :=
  if g.dim + 2 ≤ p.length then
    let b1 := p.getD 0 0
    let w1 := (p.drop 1).take g.dim
    let w2 := p.getD (g.dim + 1) 0
    g.marker_data.bind (fun X =>
      (X.right_multiply w1).bind (fun xw =>
        let yhat := smulR ((addScalar xw b1).map Real.tanh) w2
        (ewSub g.residual yhat).map (fun r =>
          g.lambda_b1 / 2 * b1 * b1 + g.lambda_w1 / 2 * dotList w1 w1 +
            g.lambda_w2 / 2 * w2 * w2 + g.lambda_e / 2 * dotList r r)))
  else none

/-- Modelled from the spec (§4.2 Gradient): with `z = X·w₁ + b₁`,
`a = tanh z`, `ŷ = w₂·a`, `h′(z) = 1 − tanh²(z)` and `s = −λ_e·(ŷ − r)`, the
gradient of `−U` is `[−λ_b1·b₁ + w₂·(sᵀh′(z)), −λ_w1·w₁ + w₂·Xᵀ(s ⊙ h′(z)),
−λ_w2·w₂ + sᵀa]` in the flat layout; used only to compare the source's
`log_density_gradient` against the derivation. -/
noncomputable def log_density_gradient_fromSpec (g : MarkerGroup)
    (p : List ℝ) : Option (List ℝ) :=
  if g.dim + 2 ≤ p.length then
    let b1 := p.getD 0 0
    let w1 := (p.drop 1).take g.dim
    let w2 := p.getD (g.dim + 1) 0
    g.marker_data.bind (fun X =>
      (X.right_multiply w1).bind (fun xw =>
        let z := addScalar xw b1
        let a := z.map Real.tanh
        let yhat := smulR a w2
        let hpz := z.map (fun t => 1 - Real.tanh t ^ 2)
        (ewSub yhat g.residual).bind (fun d =>
          let s := smul (-g.lambda_e) d
          (ewMul s hpz).bind (fun shp =>
            (X.left_multiply shp).bind (fun xts =>
              (ewAdd (smul (-g.lambda_w1) w1) (smul w2 xts)).map (fun gw =>
                (-g.lambda_b1 * b1 + w2 * dotList s hpz) ::
                  (gw ++ [-g.lambda_w2 * w2 + dotList s a])))))))
  else none

/-- Concrete group with N = M = 1, X = [[0]], r = [2], all λ = 1, marker
data bound; evaluated at θ = (b₁ = 0, w₁ = [0], w₂ = 0). -/
def gC1 : MarkerGroup := (MarkerGroup.new [2] [0] 0 0 ⟨X0⟩ 1).load_marker_data

/-- Concrete group with N = M = 1, X = [[1]], r = [0], stored w₁ = [0], all
λ = 1, marker data bound; evaluated at θ = (b₁ = 0, w₁ = [1], w₂ = 1). -/
def gC2 : MarkerGroup := (MarkerGroup.new [0] [0] 0 0 ⟨X1⟩ 1).load_marker_data

/-- Concrete group with M = 2 markers, w₁ = [1, 1], b₁ = 5, w₂ = 7. -/
def gC3 : MarkerGroup := MarkerGroup.new [0] [1, 1] 5 7 ⟨X0⟩ 2

/-- Degenerate group (dim = 0, one stored weight, X a 1 × 0 matrix, w₂ = 5)
on which `sample_params` can actually return: for any group whose stored w₁
has length `dim`, `param_vec` has length dim + 1 < dim + 2 and `log_density`
panics on it, so no call of `sample_params` returns at all. -/
def gW : MarkerGroup := (MarkerGroup.new [0] [0] 0 5 ⟨X10⟩ 0).load_marker_data

/-- Group with a non-square genotype view: N = 2 individuals, M = 1 marker. -/
def gNS : MarkerGroup :=
  (MarkerGroup.new [0, 0] [0] 0 0 ⟨X21⟩ 1).load_marker_data

lemma tanh_one_pos : 0 < Real.tanh 1 := by
  rw [Real.tanh_eq_sinh_div_cosh]
  exact div_pos (Real.sinh_pos_iff.mpr one_pos) (Real.cosh_pos 1)

lemma gC1_log_density : gC1.log_density [0, 0, 0] = some 2 := by
  simp [gC1, MarkerGroup.log_density, MarkerGroup.rss, MarkerGroup.forward_feed,
    MarkerGroup.load_marker_data, MarkerGroup.new, X0, GMatrix.right_multiply,
    GMatrix.row, dotList, ewSub, addScalar, smulR, activation_fn,
    Real.tanh_zero, List.range_succ, List.range_zero, Function.comp]

lemma gC1_U_fromSpec : U_fromSpec gC1 [0, 0, 0] = some 2 := by
  simp [gC1, U_fromSpec, MarkerGroup.load_marker_data, MarkerGroup.new, X0,
    GMatrix.right_multiply, GMatrix.row, dotList, ewSub, addScalar, smulR,
    Real.tanh_zero, List.range_succ, List.range_zero, Function.comp]

lemma gC2_code_grad :
    MarkerGroup.log_density_gradient gC2 [0, 1, 1] = some [0, -1, -1] := by
  simp [MarkerGroup.log_density_gradient, gC2, MarkerGroup.load_marker_data,
    MarkerGroup.new, X1, GMatrix.right_multiply, GMatrix.left_multiply,
    GMatrix.row, GMatrix.col, dotList, dotOpt, ewMul, ewAdd, ewSub, addScalar,
    smul, smulR, activation_fn, activation_fn_derivative,
    List.range_succ, List.range_zero, Function.comp]

lemma gC2_fromSpec :
    log_density_gradient_fromSpec gC2 [0, 1, 1] =
      some [-(Real.tanh 1 * (1 - Real.tanh 1 ^ 2)),
            -1 - Real.tanh 1 * (1 - Real.tanh 1 ^ 2),
            -1 - Real.tanh 1 ^ 2] := by
  simp [log_density_gradient_fromSpec, gC2, MarkerGroup.load_marker_data,
    MarkerGroup.new, X1, GMatrix.right_multiply, GMatrix.left_multiply,
    GMatrix.row, GMatrix.col, dotList, dotOpt, ewMul, ewAdd, ewSub, addScalar,
    smul, smulR, List.range_succ, List.range_zero, Function.comp]
  ring_nf
  norm_num

/-- C1: the claim says `log_density(θ) = −U(θ)` with all four terms of U,
including the residual-sum-of-squares term, entering with a negative sign.
The source adds `+ λ_e/2 · rss` instead: at the concrete group gC1 (where
U = 2, so −U = −2) `log_density` returns +2, not −2.  This contradicts the
source's own comment (`logarithm of the parameter density (-U)`) and its own
gradient, whose residual term is that of −U. -/
theorem log_density_flips_rss_sign :
    MarkerGroup.log_density gC1 [0, 0, 0] = some 2 ∧
    U_fromSpec gC1 [0, 0, 0] = some 2 ∧
    MarkerGroup.log_density gC1 [0, 0, 0] ≠
      (U_fromSpec gC1 [0, 0, 0]).map (fun u => -u) := by
  refine ⟨gC1_log_density, gC1_U_fromSpec, ?_⟩
  rw [gC1_log_density, gC1_U_fromSpec]
  intro h
  have h2 := Option.some.inj h
  norm_num at h2

/-- C2: the claim says `log_density_gradient` equals the gradient of −U from
the derivation, with ŷ = w₂·a (the proposed w₂).  The source instead computes
`y_hat = &a * &self.w1` (elementwise with the STORED first-layer weights) and
multiplies the Xᵀ term elementwise by s rather than forming Xᵀ(s ⊙ h′): at
gC2 with θ = (0, [1], 1) the source returns [0, −1, −1] while the derivation
gives [−tanh(1)·(1−tanh²(1)), −1−tanh(1)·(1−tanh²(1)), −1−tanh²(1)]. -/
theorem log_density_gradient_disagrees_with_derivation :
    MarkerGroup.log_density_gradient gC2 [0, 1, 1] = some [0, -1, -1] ∧
    log_density_gradient_fromSpec gC2 [0, 1, 1] ≠
      MarkerGroup.log_density_gradient gC2 [0, 1, 1] := by
  refine ⟨gC2_code_grad, ?_⟩
  rw [gC2_code_grad, gC2_fromSpec]
  intro h
  have h2 := Option.some.inj h
  simp only [List.cons.injEq] at h2
  nlinarith [tanh_one_pos, h2.2.2.1]

/-- C3: the claim says `param_vec` returns a flat vector of length M + 2
with index M + 1 holding w₂.  The source pushes b₁ and extends with w₁ only:
for gC3 (M = 2, b₁ = 5, w₁ = [1,1], w₂ = 7) it returns [5, 1, 1], of length
M + 1 and with w₂ = 7 appearing nowhere. -/
theorem param_vec_omits_w2 :
    MarkerGroup.param_vec gC3 = [5, 1, 1] ∧ gC3.dim = 2 ∧ gC3.w2 = 7 ∧
    (MarkerGroup.param_vec gC3).length ≠ gC3.dim + 2 := by
  refine ⟨rfl, rfl, rfl, ?_⟩
  simp [MarkerGroup.param_vec, gC3, MarkerGroup.new]

/-- C8: `MarkerGroup::new` sets all four precision hyperparameters to 1,
leaves the genotype view unbound, and creates a momentum source of dimension
dim + 2. -/
theorem new_defaults_and_momentum_dim (residual w1 : List ℝ) (b1 w2 : ℝ)
    (br : BedReader) (dim : ℕ) :
    (MarkerGroup.new residual w1 b1 w2 br dim).lambda_w1 = 1 ∧
    (MarkerGroup.new residual w1 b1 w2 br dim).lambda_b1 = 1 ∧
    (MarkerGroup.new residual w1 b1 w2 br dim).lambda_w2 = 1 ∧
    (MarkerGroup.new residual w1 b1 w2 br dim).lambda_e = 1 ∧
    (MarkerGroup.new residual w1 b1 w2 br dim).marker_data = none ∧
    (MarkerGroup.new residual w1 b1 w2 br dim).momentum_sampler.dimension =
      dim + 2 :=
  ⟨rfl, rfl, rfl, rfl, rfl, rfl⟩

/-- C9: with the genotype view unbound (never loaded, or dropped again by
`forget_marker_data`), `log_density` and `log_density_gradient` halt
(`Option::unwrap` panics); `none` models the halt — no value and no
recoverable error is returned. -/
theorem log_density_requires_marker_data (g : MarkerGroup) (p : List ℝ)
    (h : g.marker_data = none) :
    g.log_density p = none ∧ g.log_density_gradient p = none ∧
    g.forget_marker_data.log_density p = none ∧
    g.forget_marker_data.log_density_gradient p = none := by
  refine ⟨?_, ?_, ?_, ?_⟩ <;>
    · simp only [MarkerGroup.log_density, MarkerGroup.log_density_gradient]
      split_ifs <;>
        simp [MarkerGroup.rss, MarkerGroup.forward_feed,
          MarkerGroup.forget_marker_data, h]

/-- C9 witness: a freshly constructed group has no marker data bound and
both calls halt. -/
theorem log_density_requires_marker_data_witness :
    (MarkerGroup.new [0] [0] 0 0 ⟨X0⟩ 1).log_density [0, 0, 0] = none ∧
    (MarkerGroup.new [0] [0] 0 0 ⟨X0⟩ 1).log_density_gradient [0, 0, 0] =
      none ∧
    (MarkerGroup.new [0] [0] 0 0 ⟨X0⟩ 1).forget_marker_data.log_density
      [0, 0, 0] = none ∧
    (MarkerGroup.new [0] [0] 0 0
        ⟨X0⟩ 1).forget_marker_data.log_density_gradient [0, 0, 0] = none :=
  log_density_requires_marker_data (MarkerGroup.new [0] [0] 0 0 ⟨X0⟩ 1)
    [0, 0, 0] rfl

lemma gradient_some_forces_square {g : MarkerGroup} {X : GMatrix}
    {p v : List ℝ} (hX : g.marker_data = some X)
    (h : g.log_density_gradient p = some v) : X.rows = X.cols := by
  unfold MarkerGroup.log_density_gradient at h
  split_ifs at h with hlen
  rw [hX] at h
  simp only [Option.some_bind, Option.bind_eq_some, Option.map_eq_some'] at h
  obtain ⟨xw, hxw, yh, hyh, yd, hyd, d1, hd1, xth, hxth, t2, ht2, gw1, hgw1,
    d2, hd2, hv⟩ := h
  obtain ⟨hwlen, hxwlen⟩ := right_multiply_eq_some hxw
  obtain ⟨hylen, hyval⟩ := ewMul_eq_some hyh
  obtain ⟨hydlen, hydval⟩ := ewSub_eq_some hyd
  obtain ⟨ht2len, ht2val⟩ := ewMul_eq_some ht2
  obtain ⟨hxthl, hxthlen⟩ := left_multiply_eq_some hxth
  rw [← hxthlen, ← hxwlen]
  have h1 : ((addScalar xw (p.getD 0 0)).map activation_fn).length =
      xw.length := by simp [addScalar]
  have h2 : yh.length = xw.length := by
    rw [hyval, length_zipWith_eq hylen, h1]
  have h3 : yd.length = xw.length := by
    rw [hydval, length_zipWith_eq hydlen, h2]
  have h4 : (smulR (smul (-g.lambda_e) yd) (p.getD (g.dim + 1) 0)).length =
      xw.length := by simp [smulR, smul, h3]
  rw [← ht2len, h4]

/-- C10: for any group whose bound genotype view is not square (individual
count N = rows different from marker count M = cols), `log_density_gradient`
halts on every input: the elementwise products between the length-N
activation and scaled-residual vectors and the length-M stored w₁ and
Xᵀ-product vectors panic on the shape mismatch (`none`), so the gradient is
only defined when N = M. -/
theorem log_density_gradient_halts_when_rows_ne_cols (g : MarkerGroup)
    (X : GMatrix) (p : List ℝ) (hX : g.marker_data = some X)
    (hNM : X.rows ≠ X.cols) : g.log_density_gradient p = none := by
  cases hv : g.log_density_gradient p with
  | none => rfl
  | some v => exact absurd (gradient_some_forces_square hX hv) hNM

/-- C10 witness: on the 2 × 1 group gNS the gradient call halts. -/
theorem log_density_gradient_halts_when_rows_ne_cols_witness :
    MarkerGroup.log_density_gradient gNS [0, 0, 0] = none :=
  log_density_gradient_halts_when_rows_ne_cols gNS X21 [0, 0, 0] rfl
    (by decide)

lemma zipWith_step_eq_left (c : ℝ) (hc : c = 0) (a b : List ℝ)
    (h : a.length = b.length) :
    List.zipWith (fun x y => x + c * y) a b = a := by
  subst hc
  exact zipWith_step_zero a b h

lemma leapfrog_eps_zero (g : MarkerGroup) (θ p θ' p' : List ℝ)
    (h : g.leapfrog θ p 0 = some (θ', p')) : θ' = θ ∧ p' = p := by
  unfold MarkerGroup.leapfrog at h
  simp only [Option.bind_eq_some, Option.map_eq_some'] at h
  obtain ⟨g1, hg1, m1, hm1, p1, hp1, g2, hg2, m2, hm2, hpair⟩ := h
  obtain ⟨h1, hm1v⟩ := scaledAdd_eq_some hm1
  obtain ⟨h2, hp1v⟩ := scaledAdd_eq_some hp1
  obtain ⟨h3, hm2v⟩ := scaledAdd_eq_some hm2
  have em1 : m1 = p := by
    rw [hm1v]; exact zipWith_step_eq_left _ (by norm_num) p g1 h1
  have ep1 : p1 = θ := by
    rw [hp1v]; exact zipWith_step_eq_left _ rfl θ m1 h2
  have em2 : m2 = m1 := by
    rw [hm2v]; exact zipWith_step_eq_left _ (by norm_num) m1 g2 h3
  have hθ : θ' = p1 := (Prod.mk.injEq p1 m2 θ' p').mp hpair |>.1.symm
  have hp : p' = m2 := (Prod.mk.injEq p1 m2 θ' p').mp hpair |>.2.symm
  exact ⟨hθ.trans ep1, (hp.trans em2).trans em1⟩

lemma leapfrogSteps_eps_zero (g : MarkerGroup) (L : ℕ) :
    ∀ (θ p θ' p' : List ℝ), g.leapfrogSteps L θ p 0 = some (θ', p') →
      θ' = θ ∧ p' = p := by
  induction L with
  | zero =>
      intro θ p θ' p' h
      simp only [MarkerGroup.leapfrogSteps, Option.some.injEq,
        Prod.mk.injEq] at h
      exact ⟨h.1.symm, h.2.symm⟩
  | succ n ih =>
      intro θ p θ' p' h
      simp only [MarkerGroup.leapfrogSteps, Option.bind_eq_some] at h
      obtain ⟨⟨pm1, pm2⟩, hpm, hrest⟩ := h
      obtain ⟨e1, e2⟩ := leapfrog_eps_zero g θ p pm1 pm2 hpm
      obtain ⟨e3, e4⟩ := ih pm1 pm2 θ' p' hrest
      exact ⟨e3.trans e1, e4.trans e2⟩

/-- C6: whenever `acceptance_probability` returns a value it lies in [0, 1];
and for step size ε = 0 every leapfrog trajectory that completes leaves
(θ, p) unchanged, so the acceptance probability at its endpoints is 1. -/
theorem acceptance_probability_unit_interval_and_eps_zero :
    (∀ (g : MarkerGroup) (np nm ip im : List ℝ) (a : ℝ),
        g.acceptance_probability np nm ip im = some a → 0 ≤ a ∧ a ≤ 1) ∧
    (∀ (g : MarkerGroup) (L : ℕ) (θ p θL pL : List ℝ),
        g.leapfrogSteps L θ p 0 = some (θL, pL) →
          θL = θ ∧ pL = p ∧
            ∀ a, g.acceptance_probability θL pL θ p = some a → a = 1) := by
  constructor
  · intro g np nm ip im a h
    unfold MarkerGroup.acceptance_probability at h
    simp only [Option.bind_eq_some, Option.map_eq_some'] at h
    obtain ⟨hn, hhn, hi, hhi, hval⟩ := h
    split_ifs at hval with hle
    · exact hval ▸ ⟨zero_le_one, le_refl 1⟩
    · have hd : hn - hi ≤ 0 := le_of_lt (not_le.mp hle)
      have hup : Real.exp (hn - hi) ≤ 1 := by
        calc Real.exp (hn - hi) ≤ Real.exp 0 := Real.exp_le_exp.mpr hd
          _ = 1 := Real.exp_zero
      exact hval ▸ ⟨(Real.exp_pos _).le, hup⟩
  · intro g L θ p θL pL h
    obtain ⟨h1, h2⟩ := leapfrogSteps_eps_zero g L θ p θL pL h
    subst h1; subst h2
    refine ⟨rfl, rfl, ?_⟩
    intro a ha
    unfold MarkerGroup.acceptance_probability at ha
    simp only [Option.bind_eq_some, Option.map_eq_some'] at ha
    obtain ⟨hn, hhn, hi, hhi, hval⟩ := ha
    have he : hn = hi := Option.some.inj (hhn.symm.trans hhi)
    subst he
    rw [← hval]
    simp

/-- C6 witness: at the concrete group gEx the acceptance probability of the
unchanged endpoint pair is defined, lies in [0, 1], and equals 1 after an
ε = 0 trajectory. -/
theorem acceptance_probability_unit_interval_and_eps_zero_witness :
    (0 : ℝ) ≤ 1 ∧ (1 : ℝ) ≤ 1 ∧ (1 : ℝ) = 1 := by
  have h1 := acceptance_probability_unit_interval_and_eps_zero.1 gEx
    [0, 0, 0] [0, 0, 0] [0, 0, 0] [0, 0, 0] 1 gEx_acc
  have h2 := (acceptance_probability_unit_interval_and_eps_zero.2 gEx 1
    [0, 0, 0] [0, 0, 0] [0, 0, 0] [0, 0, 0] gEx_steps_eps_zero).2.2 1 gEx_acc
  exact ⟨h1.1, h1.2, h2⟩

lemma leapfrog_step_reversible (g : MarkerGroup) (θ p θ' p' : List ℝ)
    (eps : ℝ) (h : g.leapfrog θ p eps = some (θ', p')) :
    g.leapfrog θ' (negVec p') eps = some (θ, negVec p) := by
  unfold MarkerGroup.leapfrog at h ⊢
  simp only [Option.bind_eq_some, Option.map_eq_some'] at h
  obtain ⟨g1, hg1, m1, hm1, p1, hp1, g2, hg2, m2, hm2, hpair⟩ := h
  obtain ⟨l1, v1⟩ := scaledAdd_eq_some hm1
  obtain ⟨l2, v2⟩ := scaledAdd_eq_some hp1
  obtain ⟨l3, v3⟩ := scaledAdd_eq_some hm2
  obtain ⟨rfl, rfl⟩ := (Prod.mk.injEq p1 m2 θ' p').mp hpair
  have lm1 : m1.length = p.length := by rw [v1, length_zipWith_eq l1]
  have lp1 : p1.length = θ.length := by rw [v2, length_zipWith_eq l2]
  have lm2 : m2.length = m1.length := by rw [v3, length_zipWith_eq l3]
  have s1 : scaledAdd (negVec m2) (eps / 2) g2 = some (negVec m1) := by
    unfold scaledAdd
    rw [if_pos (by rw [length_negVec, lm2]; exact l3)]
    rw [v3]
    exact congrArg some (zip_cancel_neg (eps / 2) m1 g2 l3)
  have s2 : scaledAdd p1 eps (negVec m1) = some θ := by
    unfold scaledAdd
    rw [if_pos (by rw [length_negVec, lp1]; exact l2)]
    rw [v2]
    exact congrArg some (zip_cancel_diff eps θ m1 l2)
  have s3 : scaledAdd (negVec m1) (eps / 2) g1 = some (negVec p) := by
    unfold scaledAdd
    rw [if_pos (by rw [length_negVec, lm1]; exact l1)]
    rw [v1]
    exact congrArg some (zip_cancel_neg (eps / 2) p g1 l1)
  rw [hg2]
  simp only [Option.some_bind]
  rw [s1]
  simp only [Option.some_bind]
  rw [s2]
  simp only [Option.some_bind]
  rw [hg1]
  simp only [Option.some_bind]
  rw [s3]
  simp only [Option.map_some']

lemma leapfrogSteps_succ_last (g : MarkerGroup) (n : ℕ) :
    ∀ (θ p : List ℝ) (eps : ℝ),
      g.leapfrogSteps (n + 1) θ p eps =
        (g.leapfrogSteps n θ p eps).bind
          (fun pm => g.leapfrog pm.1 pm.2 eps) := by
  induction n with
  | zero => intro θ p eps; simp [MarkerGroup.leapfrogSteps]
  | succ m ih =>
      intro θ p eps
      calc g.leapfrogSteps (m + 1 + 1) θ p eps
          = (g.leapfrog θ p eps).bind
              (fun pm => g.leapfrogSteps (m + 1) pm.1 pm.2 eps) := rfl
        _ = (g.leapfrog θ p eps).bind
              (fun pm => (g.leapfrogSteps m pm.1 pm.2 eps).bind
                (fun q => g.leapfrog q.1 q.2 eps)) := by
              refine Option.bind_congr ?_
              intro pm _
              exact ih pm.1 pm.2 eps
        _ = ((g.leapfrog θ p eps).bind
              (fun pm => g.leapfrogSteps m pm.1 pm.2 eps)).bind
                (fun q => g.leapfrog q.1 q.2 eps) := by
              rw [Option.bind_assoc]
        _ = (g.leapfrogSteps (m + 1) θ p eps).bind
              (fun q => g.leapfrog q.1 q.2 eps) := rfl

/-- C7: leapfrog integration is time-reversible over real arithmetic: if L
steps of size ε carry (θ₀, p₀) to (θ_L, p_L), then L steps of the same ε
from (θ_L, −p_L) return exactly to (θ₀, −p₀). -/
theorem leapfrog_time_reversible (g : MarkerGroup) (L : ℕ) :
    ∀ (θ p θL pL : List ℝ) (eps : ℝ),
      g.leapfrogSteps L θ p eps = some (θL, pL) →
        g.leapfrogSteps L θL (negVec pL) eps = some (θ, negVec p) := by
  induction L with
  | zero =>
      intro θ p θL pL eps h
      simp only [MarkerGroup.leapfrogSteps, Option.some.injEq,
        Prod.mk.injEq] at h
      obtain ⟨h1, h2⟩ := h
      subst h1; subst h2
      simp [MarkerGroup.leapfrogSteps]
  | succ n ih =>
      intro θ p θL pL eps h
      rw [leapfrogSteps_succ_last] at h
      obtain ⟨⟨θn, pn⟩, hsn, hlf⟩ := Option.bind_eq_some.mp h
      have hrev := leapfrog_step_reversible g θn pn θL pL eps hlf
      show (g.leapfrog θL (negVec pL) eps).bind
          (fun pm => g.leapfrogSteps n pm.1 pm.2 eps) = some (θ, negVec p)
      rw [hrev]
      simp only [Option.some_bind]
      exact ih θ p θn pn eps hsn

/-- C7 witness: a concrete completed trajectory of gEx reversed by the
theorem. -/
theorem leapfrog_time_reversible_witness :
    gEx.leapfrogSteps 1 [0, 0, 0] (negVec [0, 0, 0]) 1 =
      some ([0, 0, 0], negVec [0, 0, 0]) :=
  leapfrog_time_reversible gEx 1 [0, 0, 0] [0, 0, 0] [0, 0, 0] [0, 0, 0] 1
    gEx_steps_eps_one

lemma gW_log_density : gW.log_density [0, 0] = some 0 := by
  simp [gW, MarkerGroup.log_density, MarkerGroup.rss, MarkerGroup.forward_feed,
    MarkerGroup.load_marker_data, MarkerGroup.new, X10, GMatrix.right_multiply,
    GMatrix.row, dotList, ewSub, addScalar, smulR, activation_fn,
    Real.tanh_zero, List.range_succ, List.range_zero, Function.comp]

lemma gW_param_vec : gW.param_vec = [0, 0] := rfl

lemma gW_acc : gW.acceptance_probability [0, 0] [] [0, 0] [] = some 1 := by
  simp [MarkerGroup.acceptance_probability, MarkerGroup.neg_hamiltonian,
    gW_log_density]

lemma gW_aux :
    MarkerGroup.sampleParamsAux gW 0 0 (fun _ => []) (fun _ => 0) 1 0 =
      some [0, 0] := by
  simp [MarkerGroup.sampleParamsAux, MarkerGroup.leapfrogSteps, gW_param_vec,
    gW_acc]

lemma gW_run :
    MarkerGroup.sample_params gW 0 0 (fun _ => []) (fun _ => 0) 1 =
      some ([0, 0], gW) := by
  simp [MarkerGroup.sample_params, gW_aux]

/-- C4 counterexample: a returning call of `sample_params` on gW yields the
accepted θ = [0, 0] while leaving the group exactly as it was — in
particular the stored w₂ is still 5, not the value θ would place at index
dim + 1 — so the accepted θ is NOT written back into (b₁, w₁, w₂).  (For a
group with |w₁| = dim no call returns at all, since `param_vec` has length
dim + 1 and `log_density` halts on it.) -/
theorem sample_params_no_writeback_counterexample :
    MarkerGroup.sample_params gW 0 0 (fun _ => []) (fun _ => 0) 1 =
      some ([0, 0], gW) ∧
    gW.w2 = 5 ∧ List.getD [(0 : ℝ), 0] (gW.dim + 1) 0 = 0 ∧ (5 : ℝ) ≠ 0 := by
  refine ⟨gW_run, rfl, rfl, by norm_num⟩

/-- C4 (amended): `sample_params` returns the accepted θ but does not write
it back into the Group Model; no group-model field is mutated by the call —
only the PRNG state (the consumed prefix of the momentum and uniform
streams) advances. -/
theorem sample_params_mutates_nothing (g : MarkerGroup) (eps : ℝ) (L : ℕ)
    (momenta : ℕ → List ℝ) (uniforms : ℕ → ℝ) (fuel : ℕ) (θ : List ℝ)
    (gOut : MarkerGroup)
    (h : g.sample_params eps L momenta uniforms fuel = some (θ, gOut)) :
    gOut = g := by
  unfold MarkerGroup.sample_params at h
  obtain ⟨θ0, h0, hpair⟩ := Option.map_eq_some'.mp h
  exact ((Prod.mk.injEq θ0 g θ gOut).mp hpair).2.symm

/-- C4 witness: the frame theorem applied to the concrete returning call on
gW. -/
theorem sample_params_mutates_nothing_witness : gW = gW :=
  sample_params_mutates_nothing gW 0 0 (fun _ => []) (fun _ => 0) 1 [0, 0] gW
    gW_run

/-- C5: `sample_params` follows the repeat-until-accept policy: a returned
θ is the endpoint of the trajectory of some iteration j, integrated from the
ORIGINAL entry position `param_vec` with the fresh momentum of iteration j,
whose acceptance test passed; and every earlier iteration i also integrated
from `param_vec` (never from a rejected endpoint) with its own fresh
momentum and failed its acceptance test. -/
theorem sample_params_repeat_until_accept (g : MarkerGroup) (eps : ℝ)
    (L : ℕ) (momenta : ℕ → List ℝ) (uniforms : ℕ → ℝ) (fuel k : ℕ)
    (θ : List ℝ)
    (h : MarkerGroup.sampleParamsAux g eps L momenta uniforms fuel k =
      some θ) :
    ∃ j, k ≤ j ∧
      (∃ pm a, g.leapfrogSteps L g.param_vec (momenta j) eps = some pm ∧
        g.acceptance_probability pm.1 pm.2 g.param_vec (momenta j) =
          some a ∧
        uniforms j < a ∧ θ = pm.1) ∧
      ∀ i, k ≤ i → i < j →
        ∃ pm a, g.leapfrogSteps L g.param_vec (momenta i) eps = some pm ∧
          g.acceptance_probability pm.1 pm.2 g.param_vec (momenta i) =
            some a ∧
          ¬ uniforms i < a := by
  induction fuel generalizing k with
  | zero => simp [MarkerGroup.sampleParamsAux] at h
  | succ n ih =>
      simp only [MarkerGroup.sampleParamsAux] at h
      obtain ⟨pm, hpm, h2⟩ := Option.bind_eq_some.mp h
      obtain ⟨a, ha, h3⟩ := Option.bind_eq_some.mp h2
      by_cases hu : uniforms k < a
      · rw [if_pos hu] at h3
        refine ⟨k, le_refl k,
          ⟨pm, a, hpm, ha, hu, (Option.some.inj h3).symm⟩, ?_⟩
        intro i hki hik
        exfalso
        omega
      · rw [if_neg hu] at h3
        obtain ⟨j, hkj, hacc, hrej⟩ := ih (k + 1) h3
        refine ⟨j, by omega, hacc, ?_⟩
        intro i hki hij
        rcases Nat.eq_or_lt_of_le hki with heq | hlt
        · subst heq
          exact ⟨pm, a, hpm, ha, hu⟩
        · exact hrej i (by omega) hij

/-- C5 witness: the policy theorem applied to the concrete returning call on
gW. -/
theorem sample_params_repeat_until_accept_witness :
    ∃ j, 0 ≤ j ∧
      (∃ pm a, gW.leapfrogSteps 0 gW.param_vec [] 0 = some pm ∧
        gW.acceptance_probability pm.1 pm.2 gW.param_vec [] = some a ∧
        (0 : ℝ) < a ∧ [0, 0] = pm.1) ∧
      ∀ i, 0 ≤ i → i < j →
        ∃ pm a, gW.leapfrogSteps 0 gW.param_vec [] 0 = some pm ∧
          gW.acceptance_probability pm.1 pm.2 gW.param_vec [] = some a ∧
          ¬ (0 : ℝ) < a :=
  sample_params_repeat_until_accept gW 0 0 (fun _ => []) (fun _ => 0) 1 0
    [0, 0] gW_aux
